import Mathlib

/-!
Verification development for the grokloc data-access layer.

Strings and byte slices are embedded as `List Nat` (UTF-8 / raw bytes);
uuids are embedded as `Nat` (with `0` playing the role of the all-zero
uuid); `bigint` columns are embedded as `Int`.  Fallible operations
return `Except`.
-/

/-- Decidable equality for `Except`, used to evaluate operations on
concrete inputs. -/
instance instDecEqExcept {ε α : Type} [DecidableEq ε] [DecidableEq α] :
    DecidableEq (Except ε α)
  | .error a, .error b =>
    if h : a = b then .isTrue (congrArg Except.error h)
    else .isFalse (fun hc => h (Except.error.inj hc))
  | .error _, .ok _ => .isFalse (fun hc => Except.noConfusion hc)
  | .ok _, .error _ => .isFalse (fun hc => Except.noConfusion hc)
  | .ok a, .ok b =>
    if h : a = b then .isTrue (congrArg Except.ok h)
    else .isFalse (fun hc => h (Except.ok.inj hc))

/-! ## Hex encoding (encoding/hex) -/

/-- One hex digit (0..15) as its lowercase ASCII byte, as produced by
`hex.EncodeToString`. -/
def hexDigitByte (n : Nat) : Nat :=
  if n < 10 then 48 + n else 87 + n

/-- Hex encoding of one byte: two lowercase hex digit bytes. -/
def hexEncodeByte (b : Nat) : List Nat :=
  [hexDigitByte (b / 16), hexDigitByte (b % 16)]

/-- Embedding of `hex.EncodeToString`: lowercase hex encoding of a byte
slice, returned as the ASCII bytes of the encoded string. -/
def hexEncode (bs : List Nat) : List Nat :=
  bs.foldr (fun b acc => hexEncodeByte b ++ acc) []

/-- Value of one ASCII hex digit byte, accepting the digit, lowercase and
uppercase ranges exactly as `hex.DecodeString` does. -/
def hexDigitVal (c : Nat) : Option Nat :=
  if 48 ≤ c ∧ c ≤ 57 then some (c - 48)
  else if 97 ≤ c ∧ c ≤ 102 then some (c - 87)
  else if 65 ≤ c ∧ c ≤ 70 then some (c - 55)
  else none

/-- Embedding of `hex.DecodeString`: fails on odd length or on any
non-hex-digit byte. -/
def hexDecode : List Nat → Option (List Nat)
  | [] => some []
  | [_] => none
  | c1 :: c2 :: rest =>
    match hexDigitVal c1, hexDigitVal c2, hexDecode rest with
    | some h, some l, some bs => some ((16 * h + l) :: bs)
    | _, _, _ => none

/-! ## Digest (pkg/security/digest) -/

/-- Big-endian fixed-width byte expansion of a natural number. -/
def natToBytesBE : Nat → Nat → List Nat
  | 0, _ => []
  | w + 1, n => natToBytesBE w (n / 256) ++ [n % 256]

/-- Modelled from the spec: `SHA256Hex` (pkg/security/digest) wraps
`crypto/sha256`, which is Go standard-library code that is not part of
this repository.  The spec requires only a deterministic, 256-bit-class,
hex-encoded fingerprint of the plaintext; it is modelled here as a
deterministic executable 256-bit hash, hex-encoded to the usual 64
lowercase hex characters.  No theorem below relies on collision
resistance. -/
def SHA256Hex (s : List Nat) : List Nat :=
  hexEncode (natToBytesBE 32 (s.foldl (fun a b => (a * 65599 + b + 1) % (2 ^ 256)) 1))

/-! ## Envelope cipher (pkg/security/crypt) -/

/-- KeyLength for AESGCM (crypt.go). -/
def KeyLength : Nat := 32

/-- GCM nonce size in bytes, the value of `gcm.NonceSize()`. -/
def nonceSize : Nat := 12

/-- Key lengths accepted by `aes.NewCipher`. -/
def aesKeySizeOK (key : List Nat) : Bool :=
  key.length == 16 || key.length == 24 || key.length == 32

/-- Modelled from the spec: `gcm.Seal` of `crypto/cipher` (Go standard
library, not part of this repository).  The spec treats AES-GCM as an
ideal AEAD: sealing appends an authentication tag that verifies exactly
when the same key is presented.  The idealization makes the tag the key
itself, so opening succeeds precisely for the sealing key; the nonce is
carried outside the sealed payload by `Encrypt` itself, exactly as in
the source. -/
def gcmSeal (key _nonce pt : List Nat) : List Nat :=
  pt ++ key

/-- Modelled from the spec: `gcm.Open`, the inverse of `gcmSeal`; fails
(authentication failure) unless the trailing tag matches the key. -/
def gcmOpen (key ct : List Nat) : Option (List Nat) :=
  if key.length ≤ ct.length ∧ ct.drop (ct.length - key.length) = key then
    some (ct.take (ct.length - key.length))
  else none

/-- Errors surfaced by the envelope cipher.  `errDigest` is crypt.go's
`ErrDigest`, `errNonce` its `ErrNonce`; the others stand for the errors
propagated untouched from the hex and AEAD collaborators. -/
inductive ErrCrypt
  | errHex
  | errKeySize
  | errNonce
  | errAuth
  | errDigest
deriving DecidableEq, Repr

/-- Embedding of `crypt.Encrypt`: hex-encoded AES-GCM sealing of `s`
under `key`, with the freshly drawn random `nonce` passed explicitly
(the source draws it from `crypto/rand`) and prepended to the sealed
payload. -/
def Encrypt (s key nonce : List Nat) : Except ErrCrypt (List Nat) :=
  if aesKeySizeOK key = false then .error .errKeySize
  else .ok (hexEncode (nonce ++ gcmSeal key nonce s))

/-- Embedding of `crypt.Decrypt`: hex-decode, split nonce from sealed
payload (`ErrNonce` when too short), open the AEAD envelope, then
recompute the sha256 hex digest of the recovered plaintext and compare
it with `expectedDigest` (`ErrDigest` on disagreement). -/
def Decrypt (e expectedDigest key : List Nat) : Except ErrCrypt (List Nat) :=
  match hexDecode e with
  | none => .error .errHex
  | some d =>
    if aesKeySizeOK key = false then .error .errKeySize
    else if d.length < nonceSize then .error .errNonce
    else
      match gcmOpen key (d.drop nonceSize) with
      | none => .error .errAuth
      | some bs =>
        if SHA256Hex bs ≠ expectedDigest then .error .errDigest
        else .ok bs

/-! ## Versioned key ring (pkg/security/versionkey) -/

/-- Embedding of `versionkey.KeyMap` (a Go map from uuid key versions to
raw keys) as an association list; lookup takes the binding semantics of
a Go map. -/
abbrev KeyMap := List (Nat × List Nat)

/-- Lookup in a `KeyMap`, the embedding of `keyMap[id]`. -/
def keyMapGet : KeyMap → Nat → Option (List Nat)
  | [], _ => none
  | (k, v) :: rest, id => if k = id then some v else keyMapGet rest id

/-- Defensive byte-for-byte copy of one key, the embedding of the
`make`/`copy` pair in `versionkey.New`. -/
def copyKey (k : List Nat) : List Nat :=
  k.map (fun b => b)

/-- Errors of pkg/security/versionkey. -/
inductive VKErr
  | KeyNotFound
  | CurrentKeyNotFound
deriving DecidableEq, Repr

/-- Embedding of `versionkey.VersionKey`. -/
structure VersionKey where
  keyMap : KeyMap
  current : Nat
deriving DecidableEq, Repr

/-- Embedding of `versionkey.New`: fails with `CurrentKeyNotFound` when
`current` is not bound in `keyMap`, otherwise stores a defensive copy of
every binding together with `current`. -/
def VersionKey.New (keyMap : KeyMap) (current : Nat) : Except VKErr VersionKey :=
  match keyMapGet keyMap current with
  | none => .error .CurrentKeyNotFound
  | some _ => .ok { keyMap := keyMap.map (fun p => (p.1, copyKey p.2)), current := current }

/-- Embedding of `versionkey.Get`. -/
def VersionKey.Get (v : VersionKey) (id : Nat) : Except VKErr (List Nat) :=
  match keyMapGet v.keyMap id with
  | none => .error .KeyNotFound
  | some k => .ok k

/-- Embedding of `versionkey.GetCurrent`: a `Get` of the current
version, with any failure reported as `CurrentKeyNotFound`. -/
def VersionKey.GetCurrent (v : VersionKey) : Except VKErr (Nat × List Nat) :=
  match v.Get v.current with
  | .error _ => .error .CurrentKeyNotFound
  | .ok k => .ok (v.current, k)

/-! ## Versioned keys (pkg/security/key) -/

/-- Embedding of `key.Versioned`: a key together with its uuid version. -/
structure Versioned where
  Version : Nat
  Key : List Nat
deriving DecidableEq, Repr

/-- Embedding of `key.VersionedMap`. -/
abbrev VersionedMap := List (Nat × List Nat)

/-- Embedding of `key.VersionedMap.Get`. -/
def VersionedMap.Get (m : VersionedMap) (u : Nat) : Except Unit Versioned :=
  match keyMapGet m u with
  | none => .error ()
  | some k => .ok { Version := u, Key := k }

/-! ## Model constants (pkg/model/status, pkg/model/role) -/

/-- Embedding of `status.Unconfirmed`. -/
def Unconfirmed : Int := 1

/-- Embedding of `status.Active`. -/
def Active : Int := 2

/-- Embedding of `status.Inactive`. -/
def Inactive : Int := 3

/-- Embedding of `role.Test`. -/
def RoleTest : Int := 3

/-! ## Table rows (db schema, org.go, user.go) -/

/-- Embedding of one row of the `orgs` table, which is also the shape of
the in-memory `org.Org` struct. -/
structure OrgRow where
  name : List Nat
  owner : Nat
  id : Nat
  insert_order : Int
  schema_version : Int
  status : Int
  ctime : Int
  mtime : Int
  signature : Nat
  role : Int
deriving DecidableEq, Repr, Inhabited

/-- Embedding of one row of the `users` table, which is also the shape
of the in-memory `user.User` struct: in a stored row the PII columns
hold hex ciphertext, in the in-memory struct they hold the decrypted
plaintext. -/
structure UserRow where
  ed25519_public : List Nat
  ed25519_public_digest : List Nat
  display_name : List Nat
  display_name_digest : List Nat
  email : List Nat
  email_digest : List Nat
  key_version : Nat
  org : Nat
  password : List Nat
  id : Nat
  insert_order : Int
  schema_version : Int
  status : Int
  ctime : Int
  mtime : Int
  signature : Nat
  role : Int
deriving DecidableEq, Repr, Inhabited

/-- Values carried in an audit `details` jsonb payload: uuids, bigints
and text. -/
inductive Jval
  | ju (u : Nat)
  | ji (i : Int)
  | js (s : List Nat)
deriving DecidableEq, Repr

/-- Embedding of `jsonb_build_object('old', x, 'new', y)`. -/
structure Details where
  old : Jval
  new : Jval
deriving DecidableEq, Repr

/-- The columns inserted into `audit_log` by the audit triggers
(`insert_order` and `ctime` are database-assigned at insert). -/
structure AuditEntry where
  audit_table : List Nat
  audit_id : Nat
  audit_column : List Nat
  old_mtime : Int
  new_mtime : Int
  old_signature : Nat
  new_signature : Nat
  details : Details
deriving DecidableEq, Repr

/-- ASCII bytes of a short column or table name, for audit rows. -/
def asciiName (s : String) : List Nat :=
  s.data.map Char.toNat

/-- Embedding of the `metadata_update` before-update trigger applied to
an `orgs` row: whatever the update set, `mtime` becomes the current time
and `signature` a fresh random uuid. -/
def OrgRow.metadata_update (r : OrgRow) (now : Int) (sig : Nat) : OrgRow :=
  { r with mtime := now, signature := sig }

/-- Embedding of the `metadata_update` before-update trigger applied to
a `users` row. -/
def UserRow.metadata_update (r : UserRow) (now : Int) (sig : Nat) : UserRow :=
  { r with mtime := now, signature := sig }

/-- Embedding of the `orgs_audit_update` after-update trigger: one audit
row per watched `orgs` column (`owner`, then `status`) whose value is
distinct between the old and the new row. -/
def orgs_audit_update (old new : OrgRow) : List AuditEntry :=
  (if old.owner = new.owner then [] else
    [{ audit_table := asciiName "orgs", audit_id := old.id,
       audit_column := asciiName "owner",
       old_mtime := old.mtime, new_mtime := new.mtime,
       old_signature := old.signature, new_signature := new.signature,
       details := { old := .ju old.owner, new := .ju new.owner } }]) ++
  (if old.status = new.status then [] else
    [{ audit_table := asciiName "orgs", audit_id := old.id,
       audit_column := asciiName "status",
       old_mtime := old.mtime, new_mtime := new.mtime,
       old_signature := old.signature, new_signature := new.signature,
       details := { old := .ji old.status, new := .ji new.status } }])

/-- Embedding of the `users_audit_update` after-update trigger: one
audit row per watched `users` column (`ed25519_public_digest`,
`display_name_digest`, `key_version`, `password`, `status`, in source
order) whose value is distinct between the old and the new row. -/
def users_audit_update (old new : UserRow) : List AuditEntry :=
  (if old.ed25519_public_digest = new.ed25519_public_digest then [] else
    [{ audit_table := asciiName "users", audit_id := old.id,
       audit_column := asciiName "ed25519_public_digest",
       old_mtime := old.mtime, new_mtime := new.mtime,
       old_signature := old.signature, new_signature := new.signature,
       details := { old := .js old.ed25519_public_digest, new := .js new.ed25519_public_digest } }]) ++
  (if old.display_name_digest = new.display_name_digest then [] else
    [{ audit_table := asciiName "users", audit_id := old.id,
       audit_column := asciiName "display_name_digest",
       old_mtime := old.mtime, new_mtime := new.mtime,
       old_signature := old.signature, new_signature := new.signature,
       details := { old := .js old.display_name_digest, new := .js new.display_name_digest } }]) ++
  (if old.key_version = new.key_version then [] else
    [{ audit_table := asciiName "users", audit_id := old.id,
       audit_column := asciiName "key_version",
       old_mtime := old.mtime, new_mtime := new.mtime,
       old_signature := old.signature, new_signature := new.signature,
       details := { old := .ju old.key_version, new := .ju new.key_version } }]) ++
  (if old.password = new.password then [] else
    [{ audit_table := asciiName "users", audit_id := old.id,
       audit_column := asciiName "password",
       old_mtime := old.mtime, new_mtime := new.mtime,
       old_signature := old.signature, new_signature := new.signature,
       details := { old := .js old.password, new := .js new.password } }]) ++
  (if old.status = new.status then [] else
    [{ audit_table := asciiName "users", audit_id := old.id,
       audit_column := asciiName "status",
       old_mtime := old.mtime, new_mtime := new.mtime,
       old_signature := old.signature, new_signature := new.signature,
       details := { old := .ji old.status, new := .ji new.status } }])

/-! ## Database state and statements (schema, org.go, user.go) -/

/-- Errors surfaced by database statements. -/
inductive DBErr
  | check
  | unique
  | noRows
  | crypt (e : ErrCrypt)
  | keyNotFound
deriving DecidableEq, Repr

/-- Visible database state: the three tables this core touches, plus the
identity sequences backing `insert_order`. -/
structure DB where
  orgs : List OrgRow
  users : List UserRow
  audit_log : List AuditEntry
  orgsSeq : Int
  usersSeq : Int
deriving DecidableEq, Repr, Inhabited

/-- Check constraints of the `orgs` table DDL. -/
def orgRowCheck (r : OrgRow) : Bool :=
  (r.name != []) && (r.owner != 0) && (r.id != 0) &&
  (decide (0 ≤ r.schema_version)) && (decide (r.schema_version ≤ 99999)) &&
  (decide (0 < r.status)) && (decide (r.status < 4)) &&
  (decide (0 < r.role)) && (decide (r.role < 4))

/-- Check constraints of the `users` table DDL. -/
def userRowCheck (r : UserRow) : Bool :=
  (r.ed25519_public != []) && (r.ed25519_public_digest != []) &&
  (r.display_name != []) && (r.display_name_digest != []) &&
  (r.email != []) && (r.email_digest != []) &&
  (r.org != 0) && (r.password != []) && (r.id != 0) &&
  (decide (0 ≤ r.schema_version)) && (decide (r.schema_version ≤ 99999)) &&
  (decide (0 < r.status)) && (decide (r.status < 4)) &&
  (decide (0 < r.role)) && (decide (r.role < 4))

/-- Insert of one row into `audit_log`, enforcing the unique constraints
on the `old_signature` and `new_signature` columns. -/
def auditInsert (db : DB) (a : AuditEntry) : Except DBErr DB :=
  if db.audit_log.any (fun r =>
      r.old_signature == a.old_signature || r.new_signature == a.new_signature) then
    .error .unique
  else .ok { db with audit_log := db.audit_log ++ [a] }

/-- Insert of a batch of audit rows, in trigger order. -/
def auditInsertAll (db : DB) : List AuditEntry → Except DBErr DB
  | [] => .ok db
  | a :: rest =>
    match auditInsert db a with
    | .error e => .error e
    | .ok db2 => auditInsertAll db2 rest

/-- Insert of one row into `orgs`, enforcing the check constraints and
the unique constraints on `name`, `id`, `insert_order` and `signature`. -/
def orgsInsert (db : DB) (row : OrgRow) : Except DBErr DB :=
  if orgRowCheck row = false then .error .check
  else if db.orgs.any (fun r =>
      r.id == row.id || r.name == row.name ||
      r.signature == row.signature || r.insert_order == row.insert_order) then
    .error .unique
  else .ok { db with orgs := db.orgs ++ [row], orgsSeq := db.orgsSeq + 1 }

/-- Unique-constraint violation of a `users` row against every other
row: `id`, `insert_order`, `signature`, `ed25519_public_digest` and the
`(email_digest, org)` index. -/
def usersUniqueViolation (rows : List UserRow) (selfId : Nat) (row : UserRow) : Bool :=
  rows.any (fun r =>
    r.id != selfId &&
    (r.id == row.id || r.insert_order == row.insert_order ||
     r.signature == row.signature ||
     r.ed25519_public_digest == row.ed25519_public_digest ||
     (r.email_digest == row.email_digest && r.org == row.org)))

/-- Insert of one row into `users`, enforcing the check constraints and
the unique constraints. -/
def usersInsert (db : DB) (row : UserRow) : Except DBErr DB :=
  if userRowCheck row = false then .error .check
  else if usersUniqueViolation db.users row.id row then .error .unique
  else .ok { db with users := db.users ++ [row], usersSeq := db.usersSeq + 1 }

/-- One `update users ... where id = $id` statement: the row is looked
up, the SET clause `f` is applied, the `metadata_update` before-update
trigger stamps `mtime` and `signature`, the constraints are re-checked,
and the `users_audit_update` after-update trigger appends its audit
rows; the whole statement is atomic, so any failure leaves the state
untouched at the caller. -/
def usersApplyUpdate (db : DB) (id : Nat) (f : UserRow → UserRow)
    (now : Int) (sig : Nat) : Except DBErr (DB × UserRow) :=
  match db.users.find? (fun r => r.id == id) with
  | none => .error .noRows
  | some old =>
    let nrow := (f old).metadata_update now sig
    if userRowCheck nrow = false then .error .check
    else if usersUniqueViolation db.users id nrow then .error .unique
    else
      match auditInsertAll
          { db with users := db.users.map (fun r => if r.id == id then nrow else r) }
          (users_audit_update old nrow) with
      | .error e => .error e
      | .ok db2 => .ok (db2, nrow)

/-- One `update orgs ... where id = $id` statement, analogous to
`usersApplyUpdate` but with the `orgs_audit_update` trigger. -/
def orgsApplyUpdate (db : DB) (id : Nat) (f : OrgRow → OrgRow)
    (now : Int) (sig : Nat) : Except DBErr (DB × OrgRow) :=
  match db.orgs.find? (fun r => r.id == id) with
  | none => .error .noRows
  | some old =>
    let nrow := (f old).metadata_update now sig
    if orgRowCheck nrow = false then .error .check
    else if db.orgs.any (fun r =>
        r.id != id &&
        (r.id == nrow.id || r.insert_order == nrow.insert_order ||
         r.name == nrow.name || r.signature == nrow.signature)) then
      .error .unique
    else
      match auditInsertAll
          { db with orgs := db.orgs.map (fun r => if r.id == id then nrow else r) }
          (orgs_audit_update old nrow) with
      | .error e => .error e
      | .ok db2 => .ok (db2, nrow)

/-- Embedding of `org.Read`: select the `orgs` row matching `id`. -/
def Org.Read (db : DB) (id : Nat) : Except DBErr OrgRow :=
  match db.orgs.find? (fun r => r.id == id) with
  | none => .error .noRows
  | some row => .ok row

/-- Embedding of `user.Read`: select the `users` row matching `id`,
resolve the key for its `key_version` and decrypt the PII columns. -/
def User.Read (db : DB) (m : VersionedMap) (id : Nat) : Except DBErr UserRow :=
  match db.users.find? (fun r => r.id == id) with
  | none => .error .noRows
  | some row =>
    match VersionedMap.Get m row.key_version with
    | .error _ => .error .keyNotFound
    | .ok versionedKey =>
      match Decrypt row.display_name row.display_name_digest versionedKey.Key with
      | .error e => .error (.crypt e)
      | .ok displayName =>
        match Decrypt row.ed25519_public row.ed25519_public_digest versionedKey.Key with
        | .error e => .error (.crypt e)
        | .ok pub =>
          match Decrypt row.email row.email_digest versionedKey.Key with
          | .error e => .error (.crypt e)
          | .ok email =>
            .ok { row with display_name := displayName, ed25519_public := pub, email := email }

/-- Random draws consumed by one `user.Insert`: the generated row id and
signature, the wall-clock time backing the `ctime`/`mtime` defaults, and
the three encryption nonces. -/
structure UserRands where
  id : Nat
  sig : Nat
  now : Int
  nonceDisplayName : List Nat
  noncePub : List Nat
  nonceEmail : List Nat
deriving Repr, Inhabited

/-- Embedding of `user.Insert`: encrypt the three PII fields under the
supplied versioned key, insert the row (digests computed over the
plaintexts, `key_version` recording the key used), then read it back
decrypted through a one-entry key map. -/
def User.Insert (db : DB) (versionedKey : Versioned)
    (displayName ed25519Public email : List Nat) (org : Nat) (password : List Nat)
    (role schemaVersion status : Int) (g : UserRands) : Except DBErr (DB × UserRow) :=
  match Encrypt displayName versionedKey.Key g.nonceDisplayName with
  | .error e => .error (.crypt e)
  | .ok encryptedDisplayName =>
    match Encrypt ed25519Public versionedKey.Key g.noncePub with
    | .error e => .error (.crypt e)
    | .ok encryptedEd25519Public =>
      match Encrypt email versionedKey.Key g.nonceEmail with
      | .error e => .error (.crypt e)
      | .ok encryptedEmail =>
        let row : UserRow :=
          { ed25519_public := encryptedEd25519Public,
            ed25519_public_digest := SHA256Hex ed25519Public,
            display_name := encryptedDisplayName,
            display_name_digest := SHA256Hex displayName,
            email := encryptedEmail,
            email_digest := SHA256Hex email,
            key_version := versionedKey.Version,
            org := org,
            password := password,
            id := g.id,
            insert_order := db.usersSeq,
            schema_version := schemaVersion,
            status := status,
            ctime := g.now,
            mtime := g.now,
            signature := g.sig,
            role := role }
        match usersInsert db row with
        | .error e => .error e
        | .ok db1 =>
          match User.Read db1 [(versionedKey.Version, versionedKey.Key)] g.id with
          | .error e => .error e
          | .ok u => .ok (db1, u)

/-- Embedding of `user.User.UpdateStatus`: `update users set status = $1
where id = $2 returning mtime, signature, status`, the returned columns
scanned into the in-memory struct; on error the struct is untouched. -/
def User.UpdateStatus (db : DB) (u : UserRow) (status : Int)
    (now : Int) (sig : Nat) : Except DBErr (DB × UserRow) :=
  match usersApplyUpdate db u.id (fun r => { r with status := status }) now sig with
  | .error e => .error e
  | .ok (db2, nrow) =>
    .ok (db2, { u with mtime := nrow.mtime, signature := nrow.signature, status := nrow.status })

/-- Embedding of `org.Org.UpdateStatus`: `update orgs set status = $1
where id = $2 returning mtime, signature, status`. -/
def Org.UpdateStatus (db : DB) (o : OrgRow) (status : Int)
    (now : Int) (sig : Nat) : Except DBErr (DB × OrgRow) :=
  match orgsApplyUpdate db o.id (fun r => { r with status := status }) now sig with
  | .error e => .error e
  | .ok (db2, nrow) =>
    .ok (db2, { o with mtime := nrow.mtime, signature := nrow.signature, status := nrow.status })

/-- Caller-visible effect of one `Org.UpdateStatus` call: the statement
is a single atomic transaction, so on error the caller still sees the
original database state and its in-memory record is never written to by
`Scan`; the boolean records success. -/
def Org.UpdateStatusCall (db : DB) (o : OrgRow) (status : Int)
    (now : Int) (sig : Nat) : DB × OrgRow × Bool :=
  match Org.UpdateStatus db o status now sig with
  | .error _ => (db, o, false)
  | .ok (db2, o2) => (db2, o2, true)

/-- Caller-visible effect of one `User.UpdateStatus` call. -/
def User.UpdateStatusCall (db : DB) (u : UserRow) (status : Int)
    (now : Int) (sig : Nat) : DB × UserRow × Bool :=
  match User.UpdateStatus db u status now sig with
  | .error _ => (db, u, false)
  | .ok (db2, u2) => (db2, u2, true)

/-- Embedding of `user.User.NewEd25519`: encrypt the new public key
under the supplied versioned key, `update users set ed25519_public = $1,
ed25519_public_digest = $2 where id = $3 returning mtime, signature,
ed25519_public_digest`, then store the plaintext in the in-memory
struct.  The statement does not touch the `key_version` column. -/
def User.NewEd25519 (db : DB) (u : UserRow) (versionedKey : Versioned)
    (ed25519Public : List Nat) (nonce : List Nat)
    (now : Int) (sig : Nat) : Except DBErr (DB × UserRow) :=
  match Encrypt ed25519Public versionedKey.Key nonce with
  | .error e => .error (.crypt e)
  | .ok encryptedEd25519Public =>
    match usersApplyUpdate db u.id
        (fun r => { r with ed25519_public := encryptedEd25519Public,
                           ed25519_public_digest := SHA256Hex ed25519Public }) now sig with
    | .error e => .error e
    | .ok (db2, nrow) =>
      .ok (db2, { u with mtime := nrow.mtime, signature := nrow.signature,
                         ed25519_public_digest := nrow.ed25519_public_digest,
                         ed25519_public := ed25519Public })

/-- The row stored by a successful `NewEd25519`: the found row with the
SET clause (new ciphertext, new digest) and the metadata trigger
applied; every other column, `key_version` included, is untouched. -/
def ed25519UpdatedRow (old : UserRow) (enc dig : List Nat) (now : Int) (sig : Nat) : UserRow :=
  { old with ed25519_public := enc, ed25519_public_digest := dig, mtime := now, signature := sig }

/-- Random draws consumed by one `org.Insert` beyond those of the owner
`user.Insert`: the generated org id, the org row's default `signature`
and `ctime`/`mtime`, and the time and signature stamped by the final
owner-promotion update. -/
structure OrgRands where
  orgId : Nat
  orgSig : Nat
  orgNow : Int
  updNow : Int
  updSig : Nat
  user : UserRands
deriving Repr, Inhabited

/-- Body of the `org.Insert` transaction, in source order: insert the
owner user (initially `Unconfirmed`), insert the org row (the source
passes the package constants `SchemaVersion = 0` for both rows and
ignores its `schemaVersion` argument), read the org back, then promote
the owner to `Active`.  Every step runs on the one connection holding
the transaction. -/
def Org.InsertTx (db : DB) (name : List Nat) (ownerVersionKey : Versioned)
    (ownerDisplayName ownerEd25519Public ownerEmail ownerPassword : List Nat)
    (role : Int) (status : Int) (g : OrgRands) :
    Except DBErr (DB × OrgRow × UserRow) :=
  match User.Insert db ownerVersionKey ownerDisplayName ownerEd25519Public ownerEmail
      g.orgId ownerPassword role 0 Unconfirmed g.user with
  | .error e => .error e
  | .ok (db1, owner) =>
    match orgsInsert db1
        { name := name, owner := owner.id, id := g.orgId,
          insert_order := db1.orgsSeq, schema_version := 0, status := status,
          ctime := g.orgNow, mtime := g.orgNow, signature := g.orgSig, role := role } with
    | .error e => .error e
    | .ok db2 =>
      match Org.Read db2 g.orgId with
      | .error e => .error e
      | .ok org =>
        match User.UpdateStatus db2 owner Active g.updNow g.updSig with
        | .error e => .error e
        | .ok (db3, owner2) => .ok (db3, org, owner2)

/-- Embedding of `org.Insert`: the transaction body under commit or
rollback semantics — on any failure the deferred rollback leaves the
caller-visible database exactly as it was. -/
def Org.Insert (db : DB) (name : List Nat) (ownerVersionKey : Versioned)
    (ownerDisplayName ownerEd25519Public ownerEmail ownerPassword : List Nat)
    (role : Int) (status : Int) (g : OrgRands) : DB × Option (OrgRow × UserRow) :=
  match Org.InsertTx db name ownerVersionKey ownerDisplayName ownerEd25519Public
      ownerEmail ownerPassword role status g with
  | .error _ => (db, none)
  | .ok (db3, org, owner) => (db3, some (org, owner))

/-! ## Sequential mutations (for the signature-uniqueness invariant) -/

/-- One accepted mutation of an `orgs` row: the attribute change `f`
followed by the `metadata_update` trigger with that mutation's clock
reading and fresh random uuid. -/
def orgMutate (r : OrgRow) (step : (OrgRow → OrgRow) × Int × Nat) : OrgRow :=
  ((step.1 r).metadata_update step.2.1 step.2.2)

/-- States reached by a sequence of accepted mutations of one `orgs`
row, in order. -/
def orgMutateAll : OrgRow → List ((OrgRow → OrgRow) × Int × Nat) → List OrgRow
  | _, [] => []
  | r, step :: rest =>
    let r2 := orgMutate r step
    r2 :: orgMutateAll r2 rest

/-- The N+1 signatures observed across N sequential mutations of one
`orgs` row: the initial one and the one after each mutation. -/
def orgObservedSignatures (r : OrgRow) (steps : List ((OrgRow → OrgRow) × Int × Nat)) : List Nat :=
  r.signature :: (orgMutateAll r steps).map (fun x => x.signature)

/-- Embedding of one row of the `repositories` table; the
`metadata_update` trigger is attached to it exactly as to `orgs` and
`users`. -/
structure RepoRow where
  name : List Nat
  org : Nat
  owner : Nat
  path : List Nat
  id : Nat
  insert_order : Int
  schema_version : Int
  status : Int
  ctime : Int
  mtime : Int
  signature : Nat
  role : Int
deriving DecidableEq, Repr, Inhabited

/-- Embedding of the `metadata_update` before-update trigger applied to
a `repositories` row. -/
def RepoRow.metadata_update (r : RepoRow) (now : Int) (sig : Nat) : RepoRow :=
  { r with mtime := now, signature := sig }

/-! ## Concrete scenario values (closed instance checks) -/

/-- A 32-byte key. -/
def keyA : List Nat := List.range 32

/-- Another 32-byte key, distinct from `keyA`. -/
def keyB : List Nat := (List.range 32).map (fun n => n + 1)

/-- A 12-byte nonce. -/
def nonceA : List Nat := List.range 12

/-- Another 12-byte nonce, distinct from `nonceA`. -/
def nonceB : List Nat := (List.range 12).map (fun n => n + 13)

/-- A third 12-byte nonce. -/
def nonceC : List Nat := (List.range 12).map (fun n => n + 26)

/-- A concrete plaintext. -/
def sW : List Nat := asciiName "secret"

/-- The encryption of `sW` under `keyA` with nonce `nonceA`. -/
def eW : List Nat := hexEncode (nonceA ++ gcmSeal keyA nonceA sW)

/-- Versioned key 1. -/
def vkA : Versioned := { Version := 1, Key := keyA }

/-- Versioned key 2, a different version with a different key. -/
def vkB : Versioned := { Version := 2, Key := keyB }

/-- A versioned key whose raw key has an invalid AES length. -/
def vkBad : Versioned := { Version := 1, Key := [1, 2, 3] }

/-- An empty database. -/
def db0 : DB := { orgs := [], users := [], audit_log := [], orgsSeq := 1, usersSeq := 1 }

/-- A stored `users` row whose encrypted fields were written under key
version 1. -/
def u0W : UserRow :=
  { ed25519_public := asciiName "aa", ed25519_public_digest := asciiName "bb",
    display_name := asciiName "cc", display_name_digest := asciiName "dd",
    email := asciiName "ee", email_digest := asciiName "ff",
    key_version := 1, org := 3, password := asciiName "pw",
    id := 5, insert_order := 1, schema_version := 0, status := 2,
    ctime := 10, mtime := 10, signature := 6, role := 1 }

/-- A database holding just `u0W`. -/
def dbC7 : DB := { orgs := [], users := [u0W], audit_log := [], orgsSeq := 2, usersSeq := 2 }

/-- A `NewEd25519` call on `u0W` made with key version 2 while the
stored row was written under key version 1. -/
def c7run : Except DBErr (DB × UserRow) :=
  User.NewEd25519 dbC7 u0W vkB (asciiName "np") nonceA 20 7

/-- A `NewEd25519` call on `u0W` made with the stored key version 1. -/
def c7wRun : Except DBErr (DB × UserRow) :=
  User.NewEd25519 dbC7 u0W vkA (asciiName "np") nonceA 20 7

/-- The successful result of `c7wRun`. -/
def c7wRes : DB × UserRow := c7wRun.toOption.getD default

/-- Random draws for a concrete `org.Insert`. -/
def gW : OrgRands :=
  { orgId := 7, orgSig := 8, orgNow := 11, updNow := 12, updSig := 9,
    user := { id := 5, sig := 6, now := 10,
              nonceDisplayName := nonceA, noncePub := nonceB, nonceEmail := nonceC } }

/-- A concrete successful `org.Insert` on the empty database. -/
def c6run : DB × Option (OrgRow × UserRow) :=
  Org.Insert db0 (asciiName "acme") vkA (asciiName "dn") (asciiName "pub")
    (asciiName "em") (asciiName "pw") RoleTest Active gW

/-- The org returned by `c6run`. -/
def c6resOrg : OrgRow := (c6run.2.getD default).1

/-- The owner returned by `c6run`. -/
def c6resUser : UserRow := (c6run.2.getD default).2

/-- Concrete audit-trigger inputs: an org row and its post-trigger state
after a status change. -/
def oldO : OrgRow :=
  { name := asciiName "acme", owner := 5, id := 7, insert_order := 1,
    schema_version := 0, status := 1, ctime := 10, mtime := 10, signature := 6, role := 3 }

/-- The post-update state of `oldO`. -/
def newO : OrgRow := { oldO with status := 2, mtime := 12, signature := 9 }

/-- The post-update state of `u0W` after a status change. -/
def newU : UserRow := { u0W with status := 3, mtime := 12, signature := 9 }

/-- The audit row that the status change from `oldO` to `newO` emits. -/
def auditEntryW : AuditEntry :=
  { audit_table := asciiName "orgs", audit_id := 7,
    audit_column := asciiName "status",
    old_mtime := 10, new_mtime := 12, old_signature := 6, new_signature := 9,
    details := { old := .ji 1, new := .ji 2 } }

/-- A database holding just the org row `oldO`. -/
def dbOrgW : DB := { orgs := [oldO], users := [], audit_log := [], orgsSeq := 2, usersSeq := 1 }

/-- The ciphertext written by the coherent `c7wRun` update. -/
def encW7 : List Nat := hexEncode (nonceA ++ gcmSeal keyA nonceA (asciiName "np"))

/-- A concrete two-mutation sequence on `oldO`. -/
def stepsW : List ((OrgRow → OrgRow) × Int × Nat) :=
  [(fun r => { r with status := 2 }, 12, 9), (fun r => { r with owner := 8 }, 13, 10)]

/-- A concrete one-binding key map. -/
def mW : KeyMap := [(1, keyA)]

/-- The ring built from `mW` with current version 1. -/
def vkNewRes : VersionKey := (VersionKey.New mW 1).toOption.getD { keyMap := [], current := 0 }

/-! ## Helper lemmas: hex and the AEAD model -/

/-- Hex digits survive a decode of their encode. -/
theorem hexDigit_roundtrip : ∀ n < 16, hexDigitVal (hexDigitByte n) = some n := by
  decide

/-- Unfolding of `hexEncode` on a cons cell. -/
theorem hexEncode_cons (b : Nat) (rest : List Nat) :
    hexEncode (b :: rest) = hexDigitByte (b / 16) :: hexDigitByte (b % 16) :: hexEncode rest :=
  rfl

/-- Decoding inverts encoding on byte slices. -/
theorem hexDecode_hexEncode (bs : List Nat) (h : ∀ b ∈ bs, b < 256) :
    hexDecode (hexEncode bs) = some bs := by
  induction bs with
  | nil => rfl
  | cons b rest ih =>
    have hb : b < 256 := h b (List.mem_cons_self b rest)
    have hrest : ∀ x ∈ rest, x < 256 := fun x hx => h x (List.mem_cons_of_mem _ hx)
    have h1 : b / 16 < 16 := by omega
    have h2 : b % 16 < 16 := Nat.mod_lt _ (by omega)
    rw [hexEncode_cons, hexDecode, hexDigit_roundtrip _ h1, hexDigit_roundtrip _ h2, ih hrest]
    show some ((16 * (b / 16) + b % 16) :: rest) = some (b :: rest)
    have : 16 * (b / 16) + b % 16 = b := by omega
    rw [this]

/-- Hex encoding is injective on byte slices. -/
theorem hexEncode_inj (l1 l2 : List Nat) (h1 : ∀ b ∈ l1, b < 256) (h2 : ∀ b ∈ l2, b < 256)
    (he : hexEncode l1 = hexEncode l2) : l1 = l2 := by
  have hd := hexDecode_hexEncode l1 h1
  rw [he, hexDecode_hexEncode l2 h2] at hd
  exact (Option.some.inj hd).symm

/-- Opening with the sealing key recovers the plaintext. -/
theorem gcmOpen_gcmSeal (key nonce pt : List Nat) :
    gcmOpen key (gcmSeal key nonce pt) = some pt := by
  have hlen : (pt ++ key).length - key.length = pt.length := by
    simp [List.length_append]
  simp only [gcmOpen, gcmSeal, hlen, List.drop_left, List.take_left, List.length_append]
  simp

/-- Opening with a different key of the same length fails. -/
theorem gcmOpen_wrong_key (k1 k2 nonce pt : List Nat)
    (hlen : k1.length = k2.length) (hne : k1 ≠ k2) :
    gcmOpen k2 (gcmSeal k1 nonce pt) = none := by
  have hl : (pt ++ k1).length - k2.length = pt.length := by
    simp [List.length_append, hlen]
  simp only [gcmOpen, gcmSeal, hl, List.drop_left]
  simp [hne]

/-- The byte-slice decoded inside `Decrypt (Encrypt ...)`. -/
theorem encrypt_payload_decodes (s key nonce : List Nat)
    (hs : ∀ b ∈ s, b < 256) (hkeyb : ∀ b ∈ key, b < 256) (hnonceb : ∀ b ∈ nonce, b < 256) :
    hexDecode (hexEncode (nonce ++ gcmSeal key nonce s)) = some (nonce ++ (s ++ key)) := by
  apply hexDecode_hexEncode
  intro b hb
  simp only [gcmSeal, List.mem_append] at hb
  rcases hb with h | h | h
  · exact hnonceb b h
  · exact hs b h
  · exact hkeyb b h

/-- C1: for every plaintext `s`, 32-byte key and 12-byte nonce drawn by
the random source, decrypting the output of `Encrypt` under the same key
with expected digest `SHA256Hex s` succeeds and returns `s`. -/
theorem crypt_round_trip (s key nonce e : List Nat)
    (hkey : key.length = KeyLength) (hnonce : nonce.length = nonceSize)
    (hs : ∀ b ∈ s, b < 256) (hkeyb : ∀ b ∈ key, b < 256) (hnonceb : ∀ b ∈ nonce, b < 256)
    (henc : Encrypt s key nonce = .ok e) :
    Decrypt e (SHA256Hex s) key = .ok s := by
  have hsz : aesKeySizeOK key = true := by
    simp [aesKeySizeOK, hkey, KeyLength]
  have he : e = hexEncode (nonce ++ gcmSeal key nonce s) := by
    rw [Encrypt, hsz] at henc
    simpa using henc.symm
  subst he
  have hdec := encrypt_payload_decodes s key nonce hs hkeyb hnonceb
  have hlen : ¬ ((nonce ++ (s ++ key)).length < nonceSize) := by
    simp [List.length_append, hnonce]
  have hdrop : (nonce ++ (s ++ key)).drop nonceSize = s ++ key := by
    rw [← hnonce, List.drop_left]
  have hopen : gcmOpen key (s ++ key) = some s := gcmOpen_gcmSeal key nonce s
  simp only [Decrypt, hdec, hsz, hlen, hdrop, hopen]
  simp

/-- Witness for C1 at a concrete plaintext, key and nonce. -/
theorem crypt_round_trip_witness : Decrypt eW (SHA256Hex sW) keyA = .ok sW :=
  crypt_round_trip sW keyA nonceA eW (by decide) (by decide) (by decide) (by decide)
    (by decide) (by decide)

/-- C4: decrypting under a different 32-byte key fails with the AEAD
authentication error, and decrypting under the right key with any
expected digest other than `SHA256Hex s` fails with `ErrDigest`; in
neither case is a plaintext returned. -/
theorem crypt_decrypt_failures :
    (∀ s k1 k2 nonce e : List Nat,
      k1.length = KeyLength → k2.length = KeyLength → nonce.length = nonceSize →
      (∀ b ∈ s, b < 256) → (∀ b ∈ k1, b < 256) → (∀ b ∈ nonce, b < 256) →
      k1 ≠ k2 → Encrypt s k1 nonce = .ok e →
      Decrypt e (SHA256Hex s) k2 = .error .errAuth) ∧
    (∀ s key nonce d e : List Nat,
      key.length = KeyLength → nonce.length = nonceSize →
      (∀ b ∈ s, b < 256) → (∀ b ∈ key, b < 256) → (∀ b ∈ nonce, b < 256) →
      d ≠ SHA256Hex s → Encrypt s key nonce = .ok e →
      Decrypt e d key = .error .errDigest) := by
  constructor
  · intro s k1 k2 nonce e hk1 hk2 hnonce hs hkb hnb hne henc
    have hsz1 : aesKeySizeOK k1 = true := by
      simp [aesKeySizeOK, hk1, KeyLength]
    have hsz2 : aesKeySizeOK k2 = true := by
      simp [aesKeySizeOK, hk2, KeyLength]
    have he : e = hexEncode (nonce ++ gcmSeal k1 nonce s) := by
      rw [Encrypt, hsz1] at henc
      simpa using henc.symm
    subst he
    have hdec := encrypt_payload_decodes s k1 nonce hs hkb hnb
    have hlen : ¬ ((nonce ++ (s ++ k1)).length < nonceSize) := by
      simp [List.length_append, hnonce]
    have hdrop : (nonce ++ (s ++ k1)).drop nonceSize = s ++ k1 := by
      rw [← hnonce, List.drop_left]
    have hopen : gcmOpen k2 (s ++ k1) = none := by
      have := gcmOpen_wrong_key k1 k2 nonce s (by rw [hk1, hk2]) hne
      simpa [gcmSeal] using this
    simp only [Decrypt, hdec, hsz2, hlen, hdrop, hopen]
    simp
  · intro s key nonce d e hk hnonce hs hkb hnb hd henc
    have hsz : aesKeySizeOK key = true := by
      simp [aesKeySizeOK, hk, KeyLength]
    have he : e = hexEncode (nonce ++ gcmSeal key nonce s) := by
      rw [Encrypt, hsz] at henc
      simpa using henc.symm
    subst he
    have hdec := encrypt_payload_decodes s key nonce hs hkb hnb
    have hlen : ¬ ((nonce ++ (s ++ key)).length < nonceSize) := by
      simp [List.length_append, hnonce]
    have hdrop : (nonce ++ (s ++ key)).drop nonceSize = s ++ key := by
      rw [← hnonce, List.drop_left]
    have hopen : gcmOpen key (s ++ key) = some s := gcmOpen_gcmSeal key nonce s
    have hne2 : SHA256Hex s ≠ d := fun hc => hd hc.symm
    simp only [Decrypt, hdec, hsz, hlen, hdrop, hopen]
    simp [hne2]

/-- Witness for C4: concrete wrong-key and tampered-digest failures. -/
theorem crypt_decrypt_failures_witness :
    Decrypt eW (SHA256Hex sW) keyB = .error .errAuth ∧
    Decrypt eW (asciiName "abcd") keyA = .error .errDigest :=
  ⟨crypt_decrypt_failures.1 sW keyA keyB nonceA eW (by decide) (by decide) (by decide)
      (by decide) (by decide) (by decide) (by decide) (by decide),
   crypt_decrypt_failures.2 sW keyA nonceA (asciiName "abcd") eW (by decide) (by decide)
      (by decide) (by decide) (by decide) (by decide) (by decide)⟩

/-- C8: two `Encrypt` calls on the same plaintext and key that draw
distinct nonces produce distinct outputs. -/
theorem encrypt_nonce_freshness (s key n1 n2 : List Nat)
    (hkey : key.length = KeyLength)
    (hs : ∀ b ∈ s, b < 256) (hk : ∀ b ∈ key, b < 256)
    (hb1 : ∀ b ∈ n1, b < 256) (hb2 : ∀ b ∈ n2, b < 256)
    (hne : n1 ≠ n2) :
    Encrypt s key n1 ≠ Encrypt s key n2 := by
  have hsz : aesKeySizeOK key = true := by
    simp [aesKeySizeOK, hkey, KeyLength]
  intro hc
  rw [Encrypt, Encrypt, hsz] at hc
  simp only [Bool.true_eq_false, if_false] at hc
  have henc : hexEncode (n1 ++ gcmSeal key n1 s) = hexEncode (n2 ++ gcmSeal key n2 s) := by
    simpa using hc
  have hval1 : ∀ b ∈ n1 ++ gcmSeal key n1 s, b < 256 := by
    intro b hb
    simp only [gcmSeal, List.mem_append] at hb
    rcases hb with h | h | h
    · exact hb1 b h
    · exact hs b h
    · exact hk b h
  have hval2 : ∀ b ∈ n2 ++ gcmSeal key n2 s, b < 256 := by
    intro b hb
    simp only [gcmSeal, List.mem_append] at hb
    rcases hb with h | h | h
    · exact hb2 b h
    · exact hs b h
    · exact hk b h
  have heq := hexEncode_inj _ _ hval1 hval2 henc
  simp only [gcmSeal] at heq
  exact hne (List.append_cancel_right heq)

/-- Witness for C8 at concrete distinct nonces. -/
theorem encrypt_nonce_freshness_witness :
    Encrypt sW keyA nonceA ≠ Encrypt sW keyA nonceB :=
  encrypt_nonce_freshness sW keyA nonceA nonceB (by decide) (by decide) (by decide)
    (by decide) (by decide) (by decide)

/-! ## Helper lemmas: key ring -/

/-- A defensive copy changes no bytes. -/
theorem copyKey_eq (k : List Nat) : copyKey k = k := by
  simp [copyKey]

/-- Lookup is unchanged by the defensive copy performed in `New`. -/
theorem keyMapGet_copy (m : KeyMap) (id : Nat) :
    keyMapGet (m.map (fun p => (p.1, copyKey p.2))) id = keyMapGet m id := by
  induction m with
  | nil => rfl
  | cons p rest ih =>
    obtain ⟨k, v⟩ := p
    by_cases h : k = id
    · simp [keyMapGet, h, copyKey_eq]
    · simp [keyMapGet, h, ih]

/-- C5: `New` fails with `CurrentKeyNotFound` exactly when `current` is
absent from the input map (in particular on the empty map), and after a
successful `New`, `Get` returns each stored key and fails with
`KeyNotFound` on each absent version. -/
theorem versionkey_new_get (m : KeyMap) (current : Nat) :
    (VersionKey.New [] current = .error .CurrentKeyNotFound) ∧
    (keyMapGet m current = none → VersionKey.New m current = .error .CurrentKeyNotFound) ∧
    (∀ k, keyMapGet m current = some k → (VersionKey.New m current).isOk = true) ∧
    (∀ vk, VersionKey.New m current = .ok vk →
      (∀ ver k, keyMapGet m ver = some k → vk.Get ver = .ok k) ∧
      (∀ ver, keyMapGet m ver = none → vk.Get ver = .error .KeyNotFound)) := by
  refine ⟨rfl, ?_, ?_, ?_⟩
  · intro h
    rw [VersionKey.New, h]
  · intro k h
    rw [VersionKey.New, h]
    rfl
  · intro vk hnew
    rw [VersionKey.New] at hnew
    cases hc : keyMapGet m current with
    | none => rw [hc] at hnew; exact absurd hnew (by simp)
    | some k0 =>
      rw [hc] at hnew
      have hvk : vk = { keyMap := m.map (fun p => (p.1, copyKey p.2)), current := current } := by
        simpa using hnew.symm
      subst hvk
      constructor
      · intro ver k h
        rw [VersionKey.Get]
        simp only [keyMapGet_copy]
        rw [h]
      · intro ver h
        rw [VersionKey.Get]
        simp only [keyMapGet_copy]
        rw [h]

/-- Witness for C5 on a concrete one-binding map. -/
theorem versionkey_new_get_witness :
    VersionKey.New [] 1 = .error .CurrentKeyNotFound ∧
    (VersionKey.New mW 1).isOk = true ∧
    vkNewRes.Get 1 = .ok keyA ∧
    vkNewRes.Get 2 = .error .KeyNotFound := by
  have h := versionkey_new_get mW 1
  have hok := h.2.2.1 keyA (by decide)
  have hres := h.2.2.2 vkNewRes (by decide)
  exact ⟨versionkey_new_get [] 1 |>.1, hok,
    hres.1 1 keyA (by decide), hres.2 2 (by decide)⟩

/-- C9: after a successful `New`, `GetCurrent` agrees with `Get` applied
to the current version, both succeed, and the defensive
`CurrentKeyNotFound` branch of `GetCurrent` is therefore unreachable. -/
theorem versionkey_getcurrent (m : KeyMap) (current : Nat) (vk : VersionKey)
    (hnew : VersionKey.New m current = .ok vk) :
    vk.current = current ∧
    vk.GetCurrent = (vk.Get vk.current).map (fun k => (vk.current, k)) ∧
    (vk.GetCurrent).isOk = true ∧
    (vk.Get vk.current).isOk = true := by
  rw [VersionKey.New] at hnew
  cases hc : keyMapGet m current with
  | none => rw [hc] at hnew; exact absurd hnew (by simp)
  | some k0 =>
    rw [hc] at hnew
    have hvk : vk = { keyMap := m.map (fun p => (p.1, copyKey p.2)), current := current } := by
      simpa using hnew.symm
    subst hvk
    have hget : keyMapGet (m.map (fun p => (p.1, copyKey p.2))) current = some k0 := by
      rw [keyMapGet_copy, hc]
    refine ⟨rfl, ?_, ?_, ?_⟩
    · simp [VersionKey.GetCurrent, VersionKey.Get, hget, Except.map]
    · simp [VersionKey.GetCurrent, VersionKey.Get, hget, Except.isOk, Except.toBool]
    · simp [VersionKey.Get, hget, Except.isOk, Except.toBool]

/-- Witness for C9 on the ring built from the concrete map. -/
theorem versionkey_getcurrent_witness :
    vkNewRes.current = 1 ∧
    vkNewRes.GetCurrent = (vkNewRes.Get vkNewRes.current).map (fun k => (vkNewRes.current, k)) ∧
    (vkNewRes.GetCurrent).isOk = true ∧
    (vkNewRes.Get vkNewRes.current).isOk = true :=
  versionkey_getcurrent mW 1 vkNewRes (by decide)

/-! ## Helper lemmas: audit triggers -/

/-- Membership in one conditional audit singleton. -/
theorem mem_audit_ite {c : Prop} [Decidable c] {a e : AuditEntry}
    (h : a ∈ (if c then ([] : List AuditEntry) else [e])) : ¬ c ∧ a = e := by
  by_cases hc : c
  · simp [hc] at h
  · simp [hc] at h
    exact ⟨hc, h⟩

/-- C2: per update of a watched entity row, the audit triggers append
exactly one audit record per watched column whose value changed — in
source order, with the entity type and id, the pre- and post-mutation
modification times and signatures, and an old/new details payload — and
zero records when no watched column changed; the metadata trigger never
touches a watched column, so a metadata-only update audits nothing. -/
theorem audit_records_iff_watched_change (o n : OrgRow) (u v : UserRow) :
    ((orgs_audit_update o n).map (fun a => a.audit_column) =
      (if o.owner = n.owner then [] else [asciiName "owner"]) ++
      (if o.status = n.status then [] else [asciiName "status"])) ∧
    (∀ a ∈ orgs_audit_update o n,
      a.audit_table = asciiName "orgs" ∧ a.audit_id = o.id ∧
      a.old_mtime = o.mtime ∧ a.new_mtime = n.mtime ∧
      a.old_signature = o.signature ∧ a.new_signature = n.signature ∧
      (a.audit_column = asciiName "owner" →
        o.owner ≠ n.owner ∧ a.details = { old := .ju o.owner, new := .ju n.owner }) ∧
      (a.audit_column = asciiName "status" →
        o.status ≠ n.status ∧ a.details = { old := .ji o.status, new := .ji n.status })) ∧
    (o.owner = n.owner → o.status = n.status → orgs_audit_update o n = []) ∧
    ((users_audit_update u v).map (fun a => a.audit_column) =
      (if u.ed25519_public_digest = v.ed25519_public_digest then []
        else [asciiName "ed25519_public_digest"]) ++
      (if u.display_name_digest = v.display_name_digest then []
        else [asciiName "display_name_digest"]) ++
      (if u.key_version = v.key_version then [] else [asciiName "key_version"]) ++
      (if u.password = v.password then [] else [asciiName "password"]) ++
      (if u.status = v.status then [] else [asciiName "status"])) ∧
    (∀ a ∈ users_audit_update u v,
      a.audit_table = asciiName "users" ∧ a.audit_id = u.id ∧
      a.old_mtime = u.mtime ∧ a.new_mtime = v.mtime ∧
      a.old_signature = u.signature ∧ a.new_signature = v.signature ∧
      (a.audit_column = asciiName "ed25519_public_digest" →
        u.ed25519_public_digest ≠ v.ed25519_public_digest ∧
        a.details = { old := .js u.ed25519_public_digest, new := .js v.ed25519_public_digest }) ∧
      (a.audit_column = asciiName "display_name_digest" →
        u.display_name_digest ≠ v.display_name_digest ∧
        a.details = { old := .js u.display_name_digest, new := .js v.display_name_digest }) ∧
      (a.audit_column = asciiName "key_version" →
        u.key_version ≠ v.key_version ∧
        a.details = { old := .ju u.key_version, new := .ju v.key_version }) ∧
      (a.audit_column = asciiName "password" →
        u.password ≠ v.password ∧
        a.details = { old := .js u.password, new := .js v.password }) ∧
      (a.audit_column = asciiName "status" →
        u.status ≠ v.status ∧
        a.details = { old := .ji u.status, new := .ji v.status })) ∧
    (u.ed25519_public_digest = v.ed25519_public_digest →
      u.display_name_digest = v.display_name_digest →
      u.key_version = v.key_version → u.password = v.password →
      u.status = v.status → users_audit_update u v = []) ∧
    (∀ (now : Int) (sig : Nat),
      (n.metadata_update now sig).owner = n.owner ∧
      (n.metadata_update now sig).status = n.status ∧
      (v.metadata_update now sig).ed25519_public_digest = v.ed25519_public_digest ∧
      (v.metadata_update now sig).display_name_digest = v.display_name_digest ∧
      (v.metadata_update now sig).key_version = v.key_version ∧
      (v.metadata_update now sig).password = v.password ∧
      (v.metadata_update now sig).status = v.status) := by
  refine ⟨?_, ?_, ?_, ?_, ?_, ?_, ?_⟩
  · by_cases h1 : o.owner = n.owner <;> by_cases h2 : o.status = n.status <;>
      simp [orgs_audit_update, h1, h2]
  · intro a ha
    rw [orgs_audit_update] at ha
    rcases List.mem_append.mp ha with h | h
    · obtain ⟨hne, rfl⟩ := mem_audit_ite h
      exact ⟨rfl, rfl, rfl, rfl, rfl, rfl, fun _ => ⟨hne, rfl⟩,
        fun hcol => absurd hcol (show asciiName "owner" ≠ asciiName "status" by decide)⟩
    · obtain ⟨hne, rfl⟩ := mem_audit_ite h
      exact ⟨rfl, rfl, rfl, rfl, rfl, rfl,
        fun hcol => absurd hcol (show asciiName "status" ≠ asciiName "owner" by decide),
        fun _ => ⟨hne, rfl⟩⟩
  · intro h1 h2
    simp [orgs_audit_update, h1, h2]
  · by_cases h1 : u.ed25519_public_digest = v.ed25519_public_digest <;>
      by_cases h2 : u.display_name_digest = v.display_name_digest <;>
      by_cases h3 : u.key_version = v.key_version <;>
      by_cases h4 : u.password = v.password <;>
      by_cases h5 : u.status = v.status <;>
      simp [users_audit_update, h1, h2, h3, h4, h5]
  · intro a ha
    rw [users_audit_update] at ha
    rcases List.mem_append.mp ha with h | h5
    rotate_left
    · obtain ⟨hne, rfl⟩ := mem_audit_ite h5
      exact ⟨rfl, rfl, rfl, rfl, rfl, rfl,
        fun hcol => absurd hcol
          (show asciiName "status" ≠ asciiName "ed25519_public_digest" by decide),
        fun hcol => absurd hcol
          (show asciiName "status" ≠ asciiName "display_name_digest" by decide),
        fun hcol => absurd hcol
          (show asciiName "status" ≠ asciiName "key_version" by decide),
        fun hcol => absurd hcol
          (show asciiName "status" ≠ asciiName "password" by decide),
        fun _ => ⟨hne, rfl⟩⟩
    rcases List.mem_append.mp h with h | h4
    rotate_left
    · obtain ⟨hne, rfl⟩ := mem_audit_ite h4
      exact ⟨rfl, rfl, rfl, rfl, rfl, rfl,
        fun hcol => absurd hcol
          (show asciiName "password" ≠ asciiName "ed25519_public_digest" by decide),
        fun hcol => absurd hcol
          (show asciiName "password" ≠ asciiName "display_name_digest" by decide),
        fun hcol => absurd hcol
          (show asciiName "password" ≠ asciiName "key_version" by decide),
        fun _ => ⟨hne, rfl⟩,
        fun hcol => absurd hcol
          (show asciiName "password" ≠ asciiName "status" by decide)⟩
    rcases List.mem_append.mp h with h | h3
    rotate_left
    · obtain ⟨hne, rfl⟩ := mem_audit_ite h3
      exact ⟨rfl, rfl, rfl, rfl, rfl, rfl,
        fun hcol => absurd hcol
          (show asciiName "key_version" ≠ asciiName "ed25519_public_digest" by decide),
        fun hcol => absurd hcol
          (show asciiName "key_version" ≠ asciiName "display_name_digest" by decide),
        fun _ => ⟨hne, rfl⟩,
        fun hcol => absurd hcol
          (show asciiName "key_version" ≠ asciiName "password" by decide),
        fun hcol => absurd hcol
          (show asciiName "key_version" ≠ asciiName "status" by decide)⟩
    rcases List.mem_append.mp h with h1 | h2
    · obtain ⟨hne, rfl⟩ := mem_audit_ite h1
      exact ⟨rfl, rfl, rfl, rfl, rfl, rfl,
        fun _ => ⟨hne, rfl⟩,
        fun hcol => absurd hcol
          (show asciiName "ed25519_public_digest" ≠ asciiName "display_name_digest" by decide),
        fun hcol => absurd hcol
          (show asciiName "ed25519_public_digest" ≠ asciiName "key_version" by decide),
        fun hcol => absurd hcol
          (show asciiName "ed25519_public_digest" ≠ asciiName "password" by decide),
        fun hcol => absurd hcol
          (show asciiName "ed25519_public_digest" ≠ asciiName "status" by decide)⟩
    · obtain ⟨hne, rfl⟩ := mem_audit_ite h2
      exact ⟨rfl, rfl, rfl, rfl, rfl, rfl,
        fun hcol => absurd hcol
          (show asciiName "display_name_digest" ≠ asciiName "ed25519_public_digest" by decide),
        fun _ => ⟨hne, rfl⟩,
        fun hcol => absurd hcol
          (show asciiName "display_name_digest" ≠ asciiName "key_version" by decide),
        fun hcol => absurd hcol
          (show asciiName "display_name_digest" ≠ asciiName "password" by decide),
        fun hcol => absurd hcol
          (show asciiName "display_name_digest" ≠ asciiName "status" by decide)⟩
  · intro h1 h2 h3 h4 h5
    simp [users_audit_update, h1, h2, h3, h4, h5]
  · intro now sig
    exact ⟨rfl, rfl, rfl, rfl, rfl, rfl, rfl⟩

/-- Witness for C2 on a concrete status change and a concrete unchanged
update. -/
theorem audit_records_iff_watched_change_witness :
    ((orgs_audit_update oldO newO).map (fun a => a.audit_column) =
      (if oldO.owner = newO.owner then [] else [asciiName "owner"]) ++
      (if oldO.status = newO.status then [] else [asciiName "status"])) ∧
    (auditEntryW.old_signature = oldO.signature ∧
      auditEntryW.details = { old := .ji oldO.status, new := .ji newO.status }) ∧
    orgs_audit_update oldO oldO = [] ∧
    users_audit_update u0W u0W = [] := by
  have h := audit_records_iff_watched_change oldO newO u0W newU
  have hmem := h.2.1 auditEntryW (by decide)
  have hdet := (hmem.2.2.2.2.2.2.2 (by decide)).2
  have h0 := audit_records_iff_watched_change oldO oldO u0W u0W
  exact ⟨h.1, ⟨hmem.2.2.2.2.1, hdet⟩, h0.2.2.1 rfl rfl,
    h0.2.2.2.2.2.1 rfl rfl rfl rfl rfl⟩

/-! ## Helper lemmas: metadata and signatures -/

/-- The signatures stored across a mutation sequence are exactly the
fresh uuids drawn by the trigger, whatever each mutation's attribute
change tried to do. -/
theorem orgMutateAll_signatures (steps : List ((OrgRow → OrgRow) × Int × Nat)) :
    ∀ r : OrgRow, (orgMutateAll r steps).map (fun x => x.signature) =
      steps.map (fun st => st.2.2) := by
  induction steps with
  | nil => intro r; rfl
  | cons st rest ih =>
    intro r
    simp only [orgMutateAll, List.map_cons, ih]
    rfl

/-- C3: the `metadata_update` trigger stamps every accepted mutation of
an `orgs`, `users` or `repositories` row with the current clock reading
as `mtime` (never regressing when the clock does not) and with the
freshly drawn uuid as `signature`; consequently the N+1 signatures
observed across N sequential mutations are exactly the initial one
followed by the N fresh draws, and are pairwise distinct whenever those
draws are fresh. -/
theorem metadata_update_monotone_fresh (r cand : OrgRow) (uc : UserRow) (rc : RepoRow)
    (now : Int) (sig : Nat) (steps : List ((OrgRow → OrgRow) × Int × Nat)) :
    ((cand.metadata_update now sig).mtime = now) ∧
    ((cand.metadata_update now sig).signature = sig) ∧
    ((uc.metadata_update now sig).mtime = now) ∧
    ((uc.metadata_update now sig).signature = sig) ∧
    ((rc.metadata_update now sig).mtime = now) ∧
    ((rc.metadata_update now sig).signature = sig) ∧
    (r.mtime ≤ now → r.mtime ≤ (cand.metadata_update now sig).mtime) ∧
    (orgObservedSignatures r steps = r.signature :: steps.map (fun st => st.2.2)) ∧
    ((r.signature :: steps.map (fun st => st.2.2)).Nodup →
      (orgObservedSignatures r steps).Pairwise (fun a b => a ≠ b)) := by
  have hobs : orgObservedSignatures r steps = r.signature :: steps.map (fun st => st.2.2) := by
    rw [orgObservedSignatures, orgMutateAll_signatures]
  refine ⟨rfl, rfl, rfl, rfl, rfl, rfl, fun h => h, hobs, ?_⟩
  intro hnodup
  rw [hobs]
  exact hnodup

/-- Witness for C3 on a concrete two-mutation sequence. -/
theorem metadata_update_monotone_fresh_witness :
    orgObservedSignatures oldO stepsW = oldO.signature :: stepsW.map (fun st => st.2.2) ∧
    (orgObservedSignatures oldO stepsW).Pairwise (fun a b => a ≠ b) ∧
    oldO.mtime ≤ (oldO.metadata_update 12 9).mtime := by
  have h := metadata_update_monotone_fresh oldO oldO u0W default 12 9 stepsW
  exact ⟨h.2.2.2.2.2.2.2.1, h.2.2.2.2.2.2.2.2 (by decide), h.2.2.2.2.2.2.1 (by decide)⟩

/-! ## Helper lemmas: database statements -/

/-- The audit-batch insert only appends to `audit_log`. -/
theorem auditInsertAll_frame (es : List AuditEntry) :
    ∀ db db2 : DB, auditInsertAll db es = .ok db2 →
      db2.orgs = db.orgs ∧ db2.users = db.users ∧
      db2.orgsSeq = db.orgsSeq ∧ db2.usersSeq = db.usersSeq := by
  induction es with
  | nil =>
    intro db db2 h
    rw [auditInsertAll] at h
    have : db = db2 := by simpa using h
    subst this
    exact ⟨rfl, rfl, rfl, rfl⟩
  | cons a rest ih =>
    intro db db2 h
    rw [auditInsertAll] at h
    cases h1 : auditInsert db a with
    | error e => rw [h1] at h; exact absurd h (by simp)
    | ok dbm =>
      rw [h1] at h
      have hframe := ih dbm db2 h
      rw [auditInsert] at h1
      by_cases hc : db.audit_log.any (fun r =>
          r.old_signature == a.old_signature || r.new_signature == a.new_signature) = true
      · rw [if_pos hc] at h1; exact absurd h1 (by simp)
      · rw [if_neg hc] at h1
        have hdbm : dbm = { db with audit_log := db.audit_log ++ [a] } := by
          simpa using h1.symm
        subst hdbm
        exact hframe

/-- What a successful `usersApplyUpdate` guarantees: a matching row was
found, the stored row is the found row with the SET clause and the
metadata trigger applied, it is in the new table, and the other tables
are untouched. -/
theorem usersApplyUpdate_ok (db : DB) (id : Nat) (f : UserRow → UserRow)
    (now : Int) (sig : Nat) (db2 : DB) (nrow : UserRow)
    (h : usersApplyUpdate db id f now sig = .ok (db2, nrow)) :
    db2.orgs = db.orgs ∧ nrow ∈ db2.users ∧
    ∃ old, db.users.find? (fun r => r.id == id) = some old ∧
      nrow = (f old).metadata_update now sig ∧ old.id = id := by
  rw [usersApplyUpdate] at h
  cases hfind : db.users.find? (fun r => r.id == id) with
  | none => rw [hfind] at h; exact absurd h (by simp)
  | some old =>
    rw [hfind] at h
    simp only at h
    by_cases hchk : userRowCheck ((f old).metadata_update now sig) = false
    · rw [if_pos hchk] at h; exact absurd h (by simp)
    · rw [if_neg hchk] at h
      by_cases huniq : usersUniqueViolation db.users id ((f old).metadata_update now sig) = true
      · rw [if_pos huniq] at h; exact absurd h (by simp)
      · rw [if_neg huniq] at h
        cases haud : auditInsertAll { db with users := db.users.map (fun r => if r.id == id then (f old).metadata_update now sig else r) } (users_audit_update old ((f old).metadata_update now sig)) with
        | error e => rw [haud] at h; exact absurd h (by simp)
        | ok dbA =>
          rw [haud] at h
          have hpair : dbA = db2 ∧ (f old).metadata_update now sig = nrow := by
            have := h
            simp at this
            exact ⟨this.1, this.2⟩
          obtain ⟨hdb, hnrow⟩ := hpair
          subst hdb
          subst hnrow
          have hframe := auditInsertAll_frame _ _ _ haud
          have hid : old.id = id := by
            have := List.find?_some hfind
            simpa using this
          refine ⟨by rw [hframe.1], ?_, old, rfl, rfl, hid⟩
          rw [hframe.2.1]
          refine List.mem_map.mpr ⟨old, List.mem_of_find?_eq_some hfind, ?_⟩
          simp [hid]

/-- What a successful `orgsInsert` guarantees. -/
theorem orgsInsert_ok (db : DB) (row : OrgRow) (db2 : DB)
    (h : orgsInsert db row = .ok db2) :
    db2.orgs = db.orgs ++ [row] ∧ db2.users = db.users ∧
    db2.audit_log = db.audit_log := by
  rw [orgsInsert] at h
  by_cases hchk : orgRowCheck row = false
  · rw [if_pos hchk] at h; exact absurd h (by simp)
  · rw [if_neg hchk] at h
    by_cases huniq : db.orgs.any (fun r =>
        r.id == row.id || r.name == row.name ||
        r.signature == row.signature || r.insert_order == row.insert_order) = true
    · rw [if_pos huniq] at h; exact absurd h (by simp)
    · rw [if_neg huniq] at h
      have : { db with orgs := db.orgs ++ [row], orgsSeq := db.orgsSeq + 1 } = db2 := by
        simpa using h
      subst this
      exact ⟨rfl, rfl, rfl⟩

/-- What a successful `Org.Read` guarantees. -/
theorem orgRead_ok (db : DB) (id : Nat) (row : OrgRow)
    (h : Org.Read db id = .ok row) : row ∈ db.orgs ∧ row.id = id := by
  rw [Org.Read] at h
  cases hfind : db.orgs.find? (fun r => r.id == id) with
  | none => rw [hfind] at h; exact absurd h (by simp)
  | some r0 =>
    rw [hfind] at h
    have : r0 = row := by simpa using h
    subst this
    have hid : r0.id = id := by
      have := List.find?_some hfind
      simpa using this
    exact ⟨List.mem_of_find?_eq_some hfind, hid⟩

/-- An `update orgs set status = $1` whose status violates the check
constraint `status > 0 and status < 4` never succeeds. -/
theorem orgsApplyUpdate_invalid_status (db : DB) (id : Nat) (s : Int)
    (now : Int) (sig : Nat) (hs : ¬ (0 < s ∧ s < 4)) :
    ∃ e, orgsApplyUpdate db id (fun r => { r with status := s }) now sig = .error e := by
  cases hfind : db.orgs.find? (fun r => r.id == id) with
  | none => exact ⟨.noRows, by rw [orgsApplyUpdate, hfind]⟩
  | some old =>
    have hchk : orgRowCheck (({ old with status := s } : OrgRow).metadata_update now sig) = false := by
      apply Bool.eq_false_iff.mpr
      intro htrue
      simp [orgRowCheck, OrgRow.metadata_update] at htrue
      exact hs ⟨by tauto, by tauto⟩
    refine ⟨.check, ?_⟩
    rw [orgsApplyUpdate, hfind]
    simp [hchk]

/-- An `update users set status = $1` whose status violates the check
constraint never succeeds. -/
theorem usersApplyUpdate_invalid_status (db : DB) (id : Nat) (s : Int)
    (now : Int) (sig : Nat) (hs : ¬ (0 < s ∧ s < 4)) :
    ∃ e, usersApplyUpdate db id (fun r => { r with status := s }) now sig = .error e := by
  cases hfind : db.users.find? (fun r => r.id == id) with
  | none => exact ⟨.noRows, by rw [usersApplyUpdate, hfind]⟩
  | some old =>
    have hchk : userRowCheck (({ old with status := s } : UserRow).metadata_update now sig) = false := by
      apply Bool.eq_false_iff.mpr
      intro htrue
      simp [userRowCheck, UserRow.metadata_update] at htrue
      exact hs ⟨by tauto, by tauto⟩
    refine ⟨.check, ?_⟩
    rw [usersApplyUpdate, hfind]
    simp [hchk]

/-- C10: `UpdateStatus` with a status outside the database-enforced
range 1..3 (such as 99) fails on both `Org` and `User`, and on that
failure the caller still sees the original database state and an
untouched in-memory record. -/
theorem updatestatus_invalid_leaves_state (db : DB) (o : OrgRow) (u : UserRow)
    (s : Int) (now : Int) (sig : Nat) (hs : ¬ (0 < s ∧ s < 4)) :
    Org.UpdateStatusCall db o s now sig = (db, o, false) ∧
    User.UpdateStatusCall db u s now sig = (db, u, false) := by
  obtain ⟨e1, h1⟩ := orgsApplyUpdate_invalid_status db o.id s now sig hs
  obtain ⟨e2, h2⟩ := usersApplyUpdate_invalid_status db u.id s now sig hs
  constructor
  · rw [Org.UpdateStatusCall, Org.UpdateStatus, h1]
  · rw [User.UpdateStatusCall, User.UpdateStatus, h2]

/-- Witness for C10: status 99 on a present org row and a present user
row. -/
theorem updatestatus_invalid_leaves_state_witness :
    Org.UpdateStatusCall dbOrgW oldO 99 20 7 = (dbOrgW, oldO, false) ∧
    User.UpdateStatusCall dbC7 u0W 99 20 7 = (dbC7, u0W, false) :=
  ⟨(updatestatus_invalid_leaves_state dbOrgW oldO u0W 99 20 7 (by decide)).1,
   (updatestatus_invalid_leaves_state dbC7 oldO u0W 99 20 7 (by decide)).2⟩

/-- What a successful `org.Insert` transaction body guarantees: the org
row read back is stored with the generated id, and the owner row is
stored with status `Active`. -/
theorem orgInsertTx_ok (db : DB) (nm : List Nat) (vk : Versioned)
    (dn pub em pw : List Nat) (role status : Int) (g : OrgRands)
    (dbF : DB) (orgF : OrgRow) (ownF : UserRow)
    (htx : Org.InsertTx db nm vk dn pub em pw role status g = .ok (dbF, orgF, ownF)) :
    orgF ∈ dbF.orgs ∧ orgF.id = g.orgId ∧ ownF.status = Active ∧
    (dbF.users.any (fun r => r.id == ownF.id && r.status == Active)) = true := by
  rw [Org.InsertTx] at htx
  split at htx
  · exact absurd htx (by simp)
  rename_i p1 db1 owner h1
  split at htx
  · exact absurd htx (by simp)
  rename_i db2 h2
  split at htx
  · exact absurd htx (by simp)
  rename_i orgR h3
  split at htx
  · exact absurd htx (by simp)
  rename_i p4 db3 owner2 h4
  have hinj := Except.ok.inj htx
  have hdbF : db3 = dbF := congrArg Prod.fst hinj
  have horgF : orgR = orgF := congrArg (fun p => p.2.1) hinj
  have hownF : owner2 = ownF := congrArg (fun p => p.2.2) hinj
  rw [User.UpdateStatus] at h4
  split at h4
  · exact absurd h4 (by simp)
  rename_i p5 dbA nrow h5
  have hpair := Except.ok.inj h4
  have hdbA : dbA = db3 := congrArg Prod.fst hpair
  have hstF : nrow.status = owner2.status := congrArg (fun p => p.2.status) hpair
  have hidF : owner.id = owner2.id := congrArg (fun p => p.2.id) hpair
  obtain ⟨horgs, hmem, old, hfind, hnrow, holdid⟩ :=
    usersApplyUpdate_ok db2 owner.id _ g.updNow g.updSig dbA nrow h5
  have horead := orgRead_ok db2 g.orgId orgR h3
  have h_st : nrow.status = Active := by
    rw [hnrow]
    rfl
  have h_nid : nrow.id = owner.id := by
    rw [hnrow]
    exact holdid
  rw [← hdbF, ← horgF, ← hownF]
  refine ⟨?_, horead.2, ?_, ?_⟩
  · rw [← hdbA, horgs]
    exact horead.1
  · rw [← hstF]
    exact h_st
  · rw [← hdbA]
    apply List.any_eq_true.mpr
    refine ⟨nrow, hmem, ?_⟩
    simp [h_nid, hidF, h_st]

/-- C6: `org.Insert` is atomic — when any step of the transaction fails
(owner insert, org-row insert, read-back, or the owner promotion) the
caller-visible database is exactly the one before the call, with no org
row, user row or audit record surviving from the attempt; on success the
org row read back is visible and the owner row is stored with status
`Active`. -/
theorem org_insert_atomic (db : DB) (nm : List Nat) (vk : Versioned)
    (dn pub em pw : List Nat) (role status : Int) (g : OrgRands) :
    ((Org.Insert db nm vk dn pub em pw role status g).2 = none →
      (Org.Insert db nm vk dn pub em pw role status g).1 = db) ∧
    (∀ o u, (Org.Insert db nm vk dn pub em pw role status g).2 = some (o, u) →
      o ∈ (Org.Insert db nm vk dn pub em pw role status g).1.orgs ∧
      o.id = g.orgId ∧ u.status = Active ∧
      ((Org.Insert db nm vk dn pub em pw role status g).1.users.any
        (fun r => r.id == u.id && r.status == Active)) = true) := by
  cases htx : Org.InsertTx db nm vk dn pub em pw role status g with
  | error e =>
    constructor
    · intro _
      rw [Org.Insert, htx]
    · intro o u hsome
      rw [Org.Insert, htx] at hsome
      exact absurd hsome (by simp)
  | ok res =>
    obtain ⟨db3, org, owner2⟩ := res
    constructor
    · intro hnone
      rw [Org.Insert, htx] at hnone
      exact absurd hnone (by simp)
    · intro o u hsome
      rw [Org.Insert, htx] at hsome
      have hou : org = o ∧ owner2 = u := by
        simpa using hsome
      have hres1 : (Org.Insert db nm vk dn pub em pw role status g).1 = db3 := by
        rw [Org.Insert, htx]
      rw [hres1, ← hou.1, ← hou.2]
      exact orgInsertTx_ok db nm vk dn pub em pw role status g db3 org owner2 htx

/-- Witness for C6: a failing insert (invalid key length) leaves the
empty database untouched, and a successful concrete insert stores the
org and the active owner. -/
theorem org_insert_atomic_witness :
    (Org.Insert db0 (asciiName "acme") vkBad (asciiName "dn") (asciiName "pub")
      (asciiName "em") (asciiName "pw") RoleTest Active gW).1 = db0 ∧
    (c6resOrg ∈ c6run.1.orgs ∧ c6resOrg.id = gW.orgId ∧ c6resUser.status = Active ∧
      (c6run.1.users.any (fun r => r.id == c6resUser.id && r.status == Active)) = true) := by
  have h1 := (org_insert_atomic db0 (asciiName "acme") vkBad (asciiName "dn")
    (asciiName "pub") (asciiName "em") (asciiName "pw") RoleTest Active gW).1 (by decide)
  have h2 := (org_insert_atomic db0 (asciiName "acme") vkA (asciiName "dn")
    (asciiName "pub") (asciiName "em") (asciiName "pw") RoleTest Active gW).2
    c6resOrg c6resUser (by decide)
  exact ⟨h1, h2⟩

/-! ## NewEd25519 and the encrypted-field triple -/

/-- Counterexample to C7 as stated: a `NewEd25519` made under key
version 2 on a row stored with `key_version` 1 succeeds, replaces the
ciphertext and the digest, and leaves the row's `key_version` column at
1, which does not reference the key actually used (version 2). -/
theorem newed25519_keyversion_counterexample :
    c7run.isOk = true ∧
    c7run.toOption.map (fun p => p.1.users.map (fun r => r.key_version)) = some [1] ∧
    vkB.Version = 2 ∧ u0W.key_version = 1 ∧ u0W.key_version ≠ vkB.Version := by
  decide

/-- C7 amended: a successful `NewEd25519` replaces the stored ciphertext
and its digest column wholesale — the new ciphertext is the encryption
of the new public key under the supplied versioned key, and the digest
is recomputed over the new plaintext — while the `key_version` column is
left unchanged, so the stored triple references the key actually used
exactly when the supplied key version equals the one already stored. -/
theorem newed25519_replaces_ciphertext_digest (db : DB) (u : UserRow) (vk : Versioned)
    (pub nonce : List Nat) (now : Int) (sig : Nat) (db2 : DB) (u2 : UserRow) (enc : List Nat)
    (henc : Encrypt pub vk.Key nonce = .ok enc)
    (hok : User.NewEd25519 db u vk pub nonce now sig = .ok (db2, u2)) :
    ∀ old, db.users.find? (fun r => r.id == u.id) = some old →
      (ed25519UpdatedRow old enc (SHA256Hex pub) now sig ∈ db2.users ∧
       (ed25519UpdatedRow old enc (SHA256Hex pub) now sig).key_version = old.key_version ∧
       (old.key_version = vk.Version →
         (ed25519UpdatedRow old enc (SHA256Hex pub) now sig).key_version = vk.Version) ∧
       u2 = { u with mtime := now, signature := sig, ed25519_public_digest := SHA256Hex pub, ed25519_public := pub }) := by
  intro old hfind
  rw [User.NewEd25519, henc] at hok
  split at hok
  · exact absurd hok (by simp)
  rename_i encV hencV
  have hencEq : encV = enc := (Except.ok.inj hencV).symm
  rw [hencEq] at hok
  split at hok
  · exact absurd hok (by simp)
  rename_i p5 dbA nrow h5
  have hpair := Except.ok.inj hok
  have hdbA : dbA = db2 := congrArg Prod.fst hpair
  obtain ⟨horgs, hmem, oldr, hfindr, hnrow, holdid⟩ :=
    usersApplyUpdate_ok db u.id _ now sig dbA nrow h5
  have holdeq : oldr = old := by
    rw [hfind] at hfindr
    exact (Option.some.inj hfindr).symm
  subst holdeq
  have hrowEq : ed25519UpdatedRow oldr enc (SHA256Hex pub) now sig = nrow := by
    rw [hnrow]
    simp [ed25519UpdatedRow, UserRow.metadata_update]
  refine ⟨?_, rfl, fun h => h, ?_⟩
  · rw [hrowEq, ← hdbA]
    exact hmem
  · have hu2 : ({ u with mtime := nrow.mtime, signature := nrow.signature, ed25519_public_digest := nrow.ed25519_public_digest, ed25519_public := pub } : UserRow) = u2 := congrArg Prod.snd hpair
    rw [← hu2, hnrow]
    simp [UserRow.metadata_update]

/-- Witness for the amended C7: the coherent concrete update made under
the stored key version 1. -/
theorem newed25519_replaces_ciphertext_digest_witness :
    ed25519UpdatedRow u0W encW7 (SHA256Hex (asciiName "np")) 20 7 ∈ c7wRes.1.users ∧
    (ed25519UpdatedRow u0W encW7 (SHA256Hex (asciiName "np")) 20 7).key_version = vkA.Version ∧
    c7wRes.2 = { u0W with mtime := 20, signature := 7, ed25519_public_digest := SHA256Hex (asciiName "np"), ed25519_public := asciiName "np" } := by
  have h := newed25519_replaces_ciphertext_digest dbC7 u0W vkA (asciiName "np") nonceA 20 7
    c7wRes.1 c7wRes.2 encW7 (by decide) (by decide) u0W (by decide)
  exact ⟨h.1, h.2.2.1 (by decide), h.2.2.2⟩
